import Mathlib

/-!
Verification development for `neighbor_node.py`, a UDP beacon collector:
it listens for JSON beacon messages, validates them, folds valid ones into
a per-vehicle table (last write wins), stops one second after the first
valid beacon (or on idle timeout), and reports the vehicle nearest to the
origin.

Modelling conventions.

JSON values decoded by `json.loads` are modelled by the inductive `JVal`.
Python's numeric-tower quirk that `bool` is a subclass of `int` (so
`isinstance(True, int)` and `isinstance(True, (int, float))` both hold, and
`True ** 2 == 1`) is modelled faithfully by `pyIsInt` / `pyIsNum` / `pyToQ`.
Python numbers are idealised as exact rationals.

`math.sqrt(x**2 + y**2)` is strictly monotone in `x**2 + y**2`, so the
selector's comparison `dist < min_dist` is equivalent to comparing squared
distances.  The embedding therefore carries squared distances (exact
rationals, computable); `Real.sqrt` is applied at the level of theorem
statements where a claim speaks about the distance itself.

Datagram decoding (UTF-8 decode plus JSON parse) is abstracted into the
three outcomes of `Decoded`: the bytes decode and parse to a value; the
bytes are not valid UTF-8, so `data.decode("utf-8")` raises
`UnicodeDecodeError`; or the decoded text is not valid JSON, so
`json.loads` raises `json.JSONDecodeError`.  The handler on line 107 is
`except json.JSONDecodeError` only; `UnicodeDecodeError` is a subclass of
`ValueError`, not of `json.JSONDecodeError`, so it is NOT caught there,
and the enclosing `try` (line 94) has only a `finally`: the exception
propagates out of `main` and the process terminates abnormally (socket
closed, no summary printed).  The embedding records this as an explicit
crash outcome of the step and of the run.  Wall-clock time `now_ms()` is
external input; each loop iteration is given the decode outcome together
with the wall-clock reading the iteration would observe, and the idle
timeout of the socket corresponds to the end of the event list.
-/

/-- A decoded JSON value as produced by Python's `json.loads`: null, bool,
int, float (idealised as an exact rational), string, array, or object. -/
inductive JVal : Type where
  | jnull : JVal
  | jbool : Bool → JVal
  | jint : ℤ → JVal
  | jfloat : ℚ → JVal
  | jstr : String → JVal
  | jarr : List JVal → JVal
  | jobj : List (String × JVal) → JVal

/-- Python `isinstance(v, (int, float))`: true for ints, floats, and bools
(Python's `bool` is a subclass of `int`). -/
def pyIsNum : JVal → Bool
  | JVal.jint _ => true
  | JVal.jfloat _ => true
  | JVal.jbool _ => true
  | _ => false

/-- Python `isinstance(v, int)`: true for ints and bools, false for floats
(a fractional timestamp is rejected, not truncated). -/
def pyIsInt : JVal → Bool
  | JVal.jint _ => true
  | JVal.jbool _ => true
  | _ => false

/-- Python `isinstance(v, str)`. -/
def pyIsStr : JVal → Bool
  | JVal.jstr _ => true
  | _ => false

/-- The numeric value of a JSON value in Python arithmetic: ints and floats
denote themselves, `True` is 1 and `False` is 0.  Only applied to values
that passed `pyIsNum`; other constructors default to 0. -/
def pyToQ : JVal → ℚ
  | JVal.jint n => (n : ℚ)
  | JVal.jfloat q => q
  | JVal.jbool b => cond b 1 0
  | _ => 0

/-- Python `d[k]` on a dict modelled as an association list: the value at
the first matching key, `none` when the key is missing (`KeyError`). -/
def alookup {α : Type} (k : String) : List (String × α) → Option α
  | [] => none
  | (k', v) :: rest => if k' = k then some v else alookup k rest

/-- Python dict update `d[k] = v`: replace the value in place when the key
exists (keeping its position), otherwise append the binding at the end
(insertion order, as Python dicts preserve it). -/
def dictInsert {α : Type} (k : String) (v : α) : List (String × α) → List (String × α)
  | [] => [(k, v)]
  | (k', v') :: rest => if k' = k then (k', v) :: rest else (k', v') :: dictInsert k v rest

/-- Embedding of `euclidean_dist_to_origin` (lines 42-52), except that it
returns the SQUARED distance `x^2 + y^2` instead of `sqrt(x^2 + y^2)`
(see the header: `Real.sqrt` is applied in theorem statements).  It first
requires `pos` to be a list of exactly two elements (`ValueError`
otherwise), then requires both coordinates to satisfy
`isinstance(x, (int, float))` (`ValueError` otherwise). -/
def euclidean_dist_to_origin_sq : JVal → Except String ℚ
  | JVal.jarr [a, b] =>
    if pyIsNum a && pyIsNum b then Except.ok (pyToQ a ^ 2 + pyToQ b ^ 2)
    else Except.error "Position coordinates must be numbers"
  | _ => Except.error "Position must be a list or tuple of length 2"

/-- A stored per-vehicle record: a Python dict of JSON values. -/
abbrev PyDict : Type := List (String × JVal)

/-- The neighbor table: a Python dict from vehicle id to record, in
insertion order. -/
abbrev Table : Type := List (String × PyDict)

/-- The body of the `try` in `nearest_neighbor`'s loop (lines 65-67): look
up `data["pos"]` (`KeyError` when missing) and compute the distance
(`ValueError` when invalid); `none` means the entry raises and is skipped.
Returns the squared distance. -/
def entry_dist_sq (data : PyDict) : Option ℚ :=
  match alookup "pos" data with
  | none => none
  | some p =>
    match euclidean_dist_to_origin_sq p with
    | Except.error _ => none
    | Except.ok d => some d

/-- One iteration of `nearest_neighbor`'s loop (lines 64-74): `acc` is the
current `(nearest_id, min_dist)` pair, `none` standing for
`(None, float('inf'))`.  An entry whose distance computation raises is
skipped; otherwise the pair is updated exactly when `dist < min_dist`
(every distance is below infinity). -/
def nnStep (acc : Option (String × ℚ)) (e : String × PyDict) : Option (String × ℚ) :=
  match entry_dist_sq e.2 with
  | none => acc
  | some d =>
    match acc with
    | none => some (e.1, d)
    | some (_, bd) => if d < bd then some (e.1, d) else acc

/-- Embedding of `nearest_neighbor` (lines 55-79): `none` for an empty
table, otherwise the fold of `nnStep` over the entries in iteration order,
yielding `none` when every entry was skipped.  The second component is the
SQUARED distance (see header). -/
def nearest_neighbor (neighbors : Table) : Option (String × ℚ) :=
  if neighbors.isEmpty then none
  else neighbors.foldl nnStep none

/-- A validated beacon: the four extracted fields.  `pos`, `speed`, `ts`
keep their JSON form (so that e.g. a boolean `ts` is representable). -/
structure Beacon : Type where
  id : String
  pos : JVal
  speed : JVal
  ts : JVal

/-- Line 124: `isinstance(msg["pos"], (list, tuple)) and len(msg["pos"]) == 2`. -/
def posShapeOk : JVal → Bool
  | JVal.jarr l => l.length == 2
  | _ => false

/-- Line 126: `all(isinstance(x, (int, float)) for x in msg["pos"])`. -/
def posElemsNum : JVal → Bool
  | JVal.jarr l => l.all pyIsNum
  | _ => true

/-- Embedding of the validation block of `main` (lines 113-133): the
decoded value must be a dict containing all four keys `id`, `pos`,
`speed`, `ts` (extra keys ignored); `id` must be a string, `pos` a
two-element list of numbers, `speed` a number, `ts` an integer.  Returns
the validated beacon, or `none` when any check fails (the datagram is
discarded). -/
def validateMsg : JVal → Option Beacon
  | JVal.jobj fields =>
    match alookup "id" fields, alookup "pos" fields, alookup "speed" fields, alookup "ts" fields with
    | some i, some p, some s, some t =>
      match i with
      | JVal.jstr idStr =>
        if !posShapeOk p then none
        else if !posElemsNum p then none
        else if !pyIsNum s then none
        else if !pyIsInt t then none
        else some ⟨idStr, p, s, t⟩
      | _ => none
    | _, _, _, _ => none
  | _ => none

/-- The record stored on a valid beacon (lines 137-141):
`{"pos": ..., "speed": ..., "last_ts": ...}`, overwriting wholesale. -/
def recordOf (b : Beacon) : PyDict :=
  [("pos", b.pos), ("speed", b.speed), ("last_ts", b.ts)]

/-- `COLLECT_WINDOW_MS = 1000` (line 35). -/
def COLLECT_WINDOW_MS : ℤ := 1000

/-- The receiver's loop state: the neighbor table and `first_ts`
(`None` until the first valid beacon is stored). -/
structure LoopState : Type where
  neighbors : Table
  first_ts : Option ℤ

/-- Outcome of decoding one datagram's bytes (line 106,
`json.loads(data.decode("utf-8"))`): the bytes decode as UTF-8 and parse
as JSON yielding a value; or `data.decode("utf-8")` raises
`UnicodeDecodeError` (bytes not valid UTF-8); or `json.loads` raises
`json.JSONDecodeError` (text not valid JSON). -/
inductive Decoded : Type where
  | ok : JVal → Decoded
  | badUtf8 : Decoded
  | badJson : Decoded

/-- Outcome of one loop iteration: continue with a new state, break out of
the loop (window elapsed) with a final state, or crash — an uncaught
exception propagates (the `except json.JSONDecodeError` handler on line
107 does not catch the `UnicodeDecodeError` of a non-UTF-8 datagram, and
the enclosing `try` has only a `finally`), terminating the process
abnormally with the table state discarded. -/
inductive StepOut : Type where
  | cont : LoopState → StepOut
  | halt : LoopState → StepOut
  | crash : LoopState → StepOut

/-- The state carried by a step outcome (for a crash: the state at the
moment the exception propagates). -/
def StepOut.state : StepOut → LoopState
  | StepOut.cont s => s
  | StepOut.halt s => s
  | StepOut.crash s => s

/-- One iteration of `main`'s receive loop (lines 103-150) on a received
datagram.  Invalid JSON text is caught by `except json.JSONDecodeError`
and the datagram is ignored; invalid UTF-8 raises `UnicodeDecodeError`,
which that handler does not catch, so the iteration crashes the process.
A message failing validation is ignored.  On success the record is
upserted under its id, `first_ts` is set to the receiver's wall clock
`now` if unset, and the loop breaks when
`now - first_ts >= COLLECT_WINDOW_MS`. -/
def processDatagram (s : LoopState) (d : Decoded) (now : ℤ) : StepOut :=
  match d with
  | Decoded.badUtf8 => StepOut.crash s
  | Decoded.badJson => StepOut.cont s
  | Decoded.ok msg =>
    match validateMsg msg with
    | none => StepOut.cont s
    | some b =>
      let neighbors := dictInsert b.id (recordOf b) s.neighbors
      let f := match s.first_ts with
        | none => now
        | some t => t
      if now - f ≥ COLLECT_WINDOW_MS then StepOut.halt ⟨neighbors, some f⟩
      else StepOut.cont ⟨neighbors, some f⟩

/-- Outcome of a whole run: the loop ended normally (window elapsed or
idle timeout, the summary is then printed), or the process died on an
uncaught exception (no summary). -/
inductive RunResult : Type where
  | finished : LoopState → RunResult
  | crashed : LoopState → RunResult

/-- The state carried by a run outcome. -/
def RunResult.state : RunResult → LoopState
  | RunResult.finished s => s
  | RunResult.crashed s => s

/-- The receive loop over a finite schedule of events, each a (decode
outcome, wall-clock reading) pair.  The loop ends normally either by the
window-elapsed break or at the end of the schedule (the socket's 1.5 s
idle timeout raising `socket.timeout`); a crashing step aborts the run
abnormally, the remaining events never processed. -/
def runLoop (s : LoopState) : List (Decoded × ℤ) → RunResult
  | [] => RunResult.finished s
  | (d, now) :: rest =>
    match processDatagram s d now with
    | StepOut.cont s' => runLoop s' rest
    | StepOut.halt s' => RunResult.finished s'
    | StepOut.crash s' => RunResult.crashed s'

/-- The ids of the beacons accepted as valid during a run, in acceptance
order (mirrors `runLoop`'s control flow, including the early break and
the crash, after which nothing more is accepted). -/
def acceptedIds (s : LoopState) : List (Decoded × ℤ) → List String
  | [] => []
  | (d, now) :: rest =>
    match d with
    | Decoded.badUtf8 => []
    | Decoded.badJson => acceptedIds s rest
    | Decoded.ok msg =>
      match validateMsg msg with
      | none => acceptedIds s rest
      | some b =>
        match processDatagram s (Decoded.ok msg) now with
        | StepOut.cont s' => b.id :: acceptedIds s' rest
        | StepOut.halt _ => [b.id]
        | StepOut.crash _ => [b.id]

/-- The final summary record (lines 160-165), with the nearest pair
carrying the squared distance (see header). -/
structure Summary : Type where
  topic : String
  count : ℕ
  nearest : Option (String × ℚ)
  ts : ℤ

/-- Summary assembly (lines 160-165): fixed topic, `count = len(neighbors)`,
the selector's result, and a fresh timestamp. -/
def mkSummary (s : LoopState) (tnow : ℤ) : Summary :=
  ⟨"/v2x/neighbor_summary", s.neighbors.length, nearest_neighbor s.neighbors, tnow⟩

/-- The keys of a table, in order. -/
def keysOf (t : Table) : List String := t.map Prod.fst

/-- A malformed datagram that the code actually survives: text that is not
valid JSON (`json.JSONDecodeError`, caught on line 107), or a decoded
value rejected by validation.  NOT included: bytes that are not valid
UTF-8, whose `UnicodeDecodeError` is not caught and crashes the process
(see `processDatagram`). -/
def isHandledMalformed (d : Decoded) : Prop :=
  d = Decoded.badJson ∨ ∃ m, d = Decoded.ok m ∧ validateMsg m = none

/-- Modelled from the spec: `pos` must be "an ordered collection of exactly
two elements, each a number" (numbers in the Python sense, see `pyIsNum`). -/
def specPosOk : JVal → Bool
  | JVal.jarr [x, y] => pyIsNum x && pyIsNum y
  | _ => false

/-- Modelled from the spec: the acceptance condition of §4.1 steps 2-4 in
declarative form, to be compared with `validateMsg` (which embeds the
code).  "Number" and "integer" follow Python's type hierarchy, where
`bool` is a subclass of `int` (see `pyIsNum` / `pyIsInt`): the decoded
value is a mapping containing all four keys (extra keys ignored), `id` a
string, `pos` a two-element collection of numbers, `speed` a number, `ts`
an integer. -/
def acceptSpec : JVal → Bool
  | JVal.jobj fields =>
    match alookup "id" fields, alookup "pos" fields, alookup "speed" fields, alookup "ts" fields with
    | some i, some p, some s, some t =>
      pyIsStr i && specPosOk p && pyIsNum s && pyIsInt t
    | _, _, _, _ => false
  | _ => false

/-- A beacon message with integer coordinates, used as concrete input. -/
def mkMsg (i : String) (x y sp t : ℤ) : JVal :=
  JVal.jobj [("id", JVal.jstr i), ("pos", JVal.jarr [JVal.jint x, JVal.jint y]),
    ("speed", JVal.jint sp), ("ts", JVal.jint t)]

/-- A stored record with integer coordinates, used as concrete input. -/
def posRecord (x y : ℤ) : PyDict :=
  [("pos", JVal.jarr [JVal.jint x, JVal.jint y]), ("speed", JVal.jint 0), ("last_ts", JVal.jint 0)]

/-- The spec's nearest-selection example: `A:[3,4]`, `B:[1,1]`, `C:[-5,0]`. -/
def exampleTable : Table :=
  [("A", posRecord 3 4), ("B", posRecord 1 1), ("C", posRecord (-5) 0)]

/-- A table with an exact tie: both entries at distance 5 from the origin. -/
def tieTable : Table := [("A", posRecord 3 4), ("B", posRecord 0 5)]

/-- A record whose `pos` key is missing (raises `KeyError` in the selector). -/
def noPosRecord : PyDict := [("speed", JVal.jint 0), ("last_ts", JVal.jint 0)]

/-- An otherwise well-formed message whose `ts` is the float `5.5`. -/
def floatTsMsg : JVal :=
  JVal.jobj [("id", JVal.jstr "v1"), ("pos", JVal.jarr [JVal.jint 3, JVal.jint 4]),
    ("speed", JVal.jint 2), ("ts", JVal.jfloat (11 / 2))]

theorem nnStep_skip {acc : Option (String × ℚ)} {e : String × PyDict}
    (h : entry_dist_sq e.2 = none) : nnStep acc e = acc := by
  simp [nnStep, h]

theorem nnStep_isSome (x : String × ℚ) (e : String × PyDict) :
    ∃ y, nnStep (some x) e = some y := by
  rcases x with ⟨bi, bd⟩
  cases h : entry_dist_sq e.2 with
  | none => exact ⟨(bi, bd), by simp [nnStep, h]⟩
  | some d =>
    by_cases hlt : d < bd
    · exact ⟨(e.1, d), by simp [nnStep, h, hlt]⟩
    · exact ⟨(bi, bd), by simp [nnStep, h, hlt]⟩

theorem foldl_nnStep_isSome (t : Table) (x : String × ℚ) :
    ∃ y, List.foldl nnStep (some x) t = some y := by
  induction t generalizing x with
  | nil => exact ⟨x, rfl⟩
  | cons e rest ih =>
    obtain ⟨y, hy⟩ := nnStep_isSome x e
    obtain ⟨z, hz⟩ := ih y
    exact ⟨z, by rw [List.foldl_cons, hy, hz]⟩

theorem foldl_nnStep_eq_none (t : Table) (acc : Option (String × ℚ)) :
    List.foldl nnStep acc t = none ↔ acc = none ∧ ∀ e ∈ t, entry_dist_sq e.2 = none := by
  induction t generalizing acc with
  | nil => simp
  | cons e rest ih =>
    rw [List.foldl_cons]
    cases he : entry_dist_sq e.2 with
    | none =>
      rw [nnStep_skip he, ih]
      simp only [List.mem_cons]
      constructor
      · rintro ⟨h1, h2⟩
        exact ⟨h1, fun e' he' => he'.elim (fun hh => hh ▸ he) (h2 e')⟩
      · rintro ⟨h1, h2⟩
        exact ⟨h1, fun e' he' => h2 e' (Or.inr he')⟩
    | some d =>
      cases acc with
      | none =>
        have hstep : nnStep none e = some (e.1, d) := by simp [nnStep, he]
        rw [hstep]
        constructor
        · intro hc
          obtain ⟨y, hy⟩ := foldl_nnStep_isSome rest (e.1, d)
          rw [hy] at hc; cases hc
        · rintro ⟨-, hall⟩
          have := hall e (List.mem_cons_self e rest)
          rw [he] at this; cases this
      | some x =>
        constructor
        · intro hc
          obtain ⟨y, hy⟩ := nnStep_isSome x e
          rw [hy] at hc
          obtain ⟨z, hz⟩ := foldl_nnStep_isSome rest y
          rw [hz] at hc; cases hc
        · rintro ⟨hc, -⟩; cases hc

theorem foldl_nnStep_min (t : Table) :
    ∀ acc i d, List.foldl nnStep acc t = some (i, d) →
      (∀ e ∈ t, ∀ d', entry_dist_sq e.2 = some d' → d ≤ d') ∧
      (∀ i0 d0, acc = some (i0, d0) → d ≤ d0) := by
  induction t with
  | nil =>
    intro acc i d h
    simp only [List.foldl_nil] at h
    refine ⟨by simp, ?_⟩
    rintro i0 d0 rfl
    injection h with h'
    injection h' with h1 h2
    exact le_of_eq h2.symm
  | cons e rest ih =>
    intro acc i d h
    rw [List.foldl_cons] at h
    obtain ⟨hrest, hacc⟩ := ih (nnStep acc e) i d h
    cases he : entry_dist_sq e.2 with
    | none =>
      refine ⟨?_, ?_⟩
      · intro e' he' d' hd'
        rcases List.mem_cons.mp he' with rfl | hmem
        · rw [he] at hd'; cases hd'
        · exact hrest e' hmem d' hd'
      · rintro i0 d0 rfl
        exact hacc i0 d0 (by rw [nnStep_skip he])
    | some de =>
      have hkey : d ≤ de ∧ ∀ i0 d0, acc = some (i0, d0) → d ≤ d0 := by
        cases acc with
        | none =>
          have hstep : nnStep none e = some (e.1, de) := by simp [nnStep, he]
          refine ⟨hacc e.1 de hstep, ?_⟩
          rintro i0 d0 hc; cases hc
        | some x =>
          rcases x with ⟨bi, bd⟩
          by_cases hlt : de < bd
          · have hstep : nnStep (some (bi, bd)) e = some (e.1, de) := by
              simp [nnStep, he, hlt]
            have h1 := hacc e.1 de hstep
            refine ⟨h1, ?_⟩
            rintro i0 d0 hc
            injection hc with hc'
            injection hc' with hc1 hc2
            exact le_trans h1 (le_of_lt (hc2 ▸ hlt))
          · have hstep : nnStep (some (bi, bd)) e = some (bi, bd) := by
              simp [nnStep, he, hlt]
            have h1 := hacc bi bd hstep
            refine ⟨le_trans h1 (not_lt.mp hlt), ?_⟩
            rintro i0 d0 hc
            injection hc with hc'
            injection hc' with hc1 hc2
            exact hc2 ▸ h1
      refine ⟨?_, hkey.2⟩
      intro e' he' d' hd'
      rcases List.mem_cons.mp he' with rfl | hmem
      · rw [he] at hd'
        injection hd' with hd''
        exact hd'' ▸ hkey.1
      · exact hrest e' hmem d' hd'

theorem foldl_nnStep_first (t : Table) :
    ∀ acc i d, List.foldl nnStep acc t = some (i, d) →
      acc = some (i, d) ∨
      ∃ pre rec post, t = pre ++ (i, rec) :: post ∧ entry_dist_sq rec = some d ∧
        (∀ e ∈ pre, ∀ d', entry_dist_sq e.2 = some d' → d < d') ∧
        (∀ i0 d0, acc = some (i0, d0) → d < d0) := by
  induction t with
  | nil =>
    intro acc i d h
    simp only [List.foldl_nil] at h
    exact Or.inl h
  | cons e rest ih =>
    intro acc i d h
    rw [List.foldl_cons] at h
    rcases ih (nnStep acc e) i d h with hA | hB
    · -- the winner is already the accumulator after processing e
      cases he : entry_dist_sq e.2 with
      | none =>
        have hs : nnStep acc e = acc := nnStep_skip he
        exact Or.inl (hs.symm.trans hA)
      | some de =>
        cases acc with
        | none =>
          have hstep : nnStep none e = some (e.1, de) := by simp [nnStep, he]
          rw [hstep] at hA
          injection hA with hA'
          injection hA' with h1 h2
          refine Or.inr ⟨[], e.2, rest, ?_, ?_, by simp, by rintro i0 d0 hc; cases hc⟩
          · simp [← h1]
          · rw [he, h2]
        | some x =>
          rcases x with ⟨bi, bd⟩
          by_cases hlt : de < bd
          · have hstep : nnStep (some (bi, bd)) e = some (e.1, de) := by
              simp [nnStep, he, hlt]
            rw [hstep] at hA
            injection hA with hA'
            injection hA' with h1 h2
            refine Or.inr ⟨[], e.2, rest, by simp [← h1], by rw [he, h2], by simp, ?_⟩
            rintro i0 d0 hc
            injection hc with hc'
            injection hc' with hc1 hc2
            rw [← h2, ← hc2]
            exact hlt
          · have hstep : nnStep (some (bi, bd)) e = some (bi, bd) := by
              simp [nnStep, he, hlt]
            rw [hstep] at hA
            exact Or.inl hA
    · -- the winner comes from the tail
      obtain ⟨pre, rec, post, hsplit, hdist, hpre, haccb⟩ := hB
      refine Or.inr ⟨e :: pre, rec, post, by rw [hsplit]; rfl, hdist, ?_, ?_⟩
      · intro e' he' d' hd'
        rcases List.mem_cons.mp he' with rfl | hmem
        · -- the skipped-over head must be strictly farther
          cases he : entry_dist_sq e'.2 with
          | none => rw [he] at hd'; cases hd'
          | some de =>
            rw [he] at hd'
            injection hd' with hd''
            rw [← hd'']
            cases acc with
            | none =>
              have hstep : nnStep none e' = some (e'.1, de) := by simp [nnStep, he]
              exact haccb e'.1 de hstep
            | some x =>
              rcases x with ⟨bi, bd⟩
              by_cases hlt : de < bd
              · have hstep : nnStep (some (bi, bd)) e' = some (e'.1, de) := by
                  simp [nnStep, he, hlt]
                exact haccb e'.1 de hstep
              · have hstep : nnStep (some (bi, bd)) e' = some (bi, bd) := by
                  simp [nnStep, he, hlt]
                exact lt_of_lt_of_le (haccb bi bd hstep) (not_lt.mp hlt)
        · exact hpre e' hmem d' hd'
      · rintro i0 d0 rfl
        cases he : entry_dist_sq e.2 with
        | none => exact haccb i0 d0 (by rw [nnStep_skip he])
        | some de =>
          by_cases hlt : de < d0
          · have hstep : nnStep (some (i0, d0)) e = some (e.1, de) := by
              simp [nnStep, he, hlt]
            exact lt_trans (haccb e.1 de hstep) hlt
          · have hstep : nnStep (some (i0, d0)) e = some (i0, d0) := by
              simp [nnStep, he, hlt]
            exact haccb i0 d0 hstep

theorem euclid_ok_inv (p : JVal) (d : ℚ)
    (h : euclidean_dist_to_origin_sq p = Except.ok d) :
    ∃ a b, p = JVal.jarr [a, b] ∧ pyIsNum a = true ∧ pyIsNum b = true ∧
      d = pyToQ a ^ 2 + pyToQ b ^ 2 := by
  cases p with
  | jarr l =>
    rcases l with _ | ⟨a, _ | ⟨b, _ | ⟨c, tl⟩⟩⟩ <;>
      simp only [euclidean_dist_to_origin_sq] at h
    · cases h
    · cases h
    · by_cases hn : (pyIsNum a && pyIsNum b) = true
      · rw [if_pos hn] at h
        injection h with h'
        rw [Bool.and_eq_true] at hn
        exact ⟨a, b, rfl, hn.1, hn.2, h'.symm⟩
      · rw [if_neg hn] at h
        cases h
    · cases h
  | jnull => cases h
  | jbool b => cases h
  | jint n => cases h
  | jfloat q => cases h
  | jstr s => cases h
  | jobj f => cases h

theorem entry_dist_sq_some_inv (data : PyDict) (d : ℚ)
    (h : entry_dist_sq data = some d) :
    ∃ p, alookup "pos" data = some p ∧ euclidean_dist_to_origin_sq p = Except.ok d := by
  cases hl : alookup "pos" data with
  | none =>
    simp only [entry_dist_sq, hl] at h
    cases h
  | some p =>
    simp only [entry_dist_sq, hl] at h
    cases he : euclidean_dist_to_origin_sq p with
    | error s =>
      simp only [he] at h
      cases h
    | ok d0 =>
      simp only [he] at h
      injection h with h'
      exact ⟨p, rfl, by rw [he, h']⟩

/-- Claim C5: the selector's result is null if and only if the table is
empty or every record's position is unevaluable (its distance computation
raises). -/
theorem claim_C5 (t : Table) :
    nearest_neighbor t = none ↔ t = [] ∨ ∀ e ∈ t, entry_dist_sq e.2 = none := by
  unfold nearest_neighbor
  by_cases hemp : t.isEmpty = true
  · rw [if_pos hemp]
    simp [List.isEmpty_iff.mp hemp]
  · rw [if_neg hemp]
    rw [foldl_nnStep_eq_none]
    have hne : t ≠ [] := fun hc => hemp (by rw [hc]; rfl)
    simp [hne]

/-- Claim C7: whenever the selector returns a pair, the winning entry is
the FIRST entry of the table (in the mapping's insertion iteration order)
attaining the minimal distance: every earlier evaluable entry is strictly
farther, and no entry is strictly nearer.  In particular, among two or
more entries with exactly equal minimal distances, the first one in
iteration order is returned. -/
theorem claim_C7 (t : Table) (i : String) (d : ℚ)
    (h : nearest_neighbor t = some (i, d)) :
    ∃ pre rec post, t = pre ++ (i, rec) :: post ∧ entry_dist_sq rec = some d ∧
      (∀ e ∈ pre, ∀ d', entry_dist_sq e.2 = some d' → d < d') ∧
      (∀ e ∈ t, ∀ d', entry_dist_sq e.2 = some d' → d ≤ d') := by
  unfold nearest_neighbor at h
  by_cases hemp : t.isEmpty = true
  · rw [if_pos hemp] at h; cases h
  · rw [if_neg hemp] at h
    rcases foldl_nnStep_first t none i d h with hA | hB
    · cases hA
    · obtain ⟨pre, rec, post, h1, h2, h3, -⟩ := hB
      exact ⟨pre, rec, post, h1, h2, h3, (foldl_nnStep_min t none i d h).1⟩

/-- Witness for C7 at a concrete exact tie: `A:[3,4]` and `B:[0,5]` are
both at squared distance 25; the selector returns `A`, the first of the
tied entries in iteration order. -/
theorem claim_C7_witness :
    nearest_neighbor tieTable = some ("A", 25) ∧
    entry_dist_sq (posRecord 0 5) = some 25 ∧
    ∃ pre rec post, tieTable = pre ++ ("A", rec) :: post ∧
      entry_dist_sq rec = some 25 ∧
      (∀ e ∈ pre, ∀ d', entry_dist_sq e.2 = some d' → 25 < d') ∧
      (∀ e ∈ tieTable, ∀ d', entry_dist_sq e.2 = some d' → 25 ≤ d') := by
  have h : nearest_neighbor tieTable = some ("A", 25) := by
    norm_num [nearest_neighbor, nnStep, entry_dist_sq, euclidean_dist_to_origin_sq,
      alookup, pyToQ, pyIsNum, tieTable, posRecord, List.foldl]
  refine ⟨h, ?_, claim_C7 tieTable "A" 25 h⟩
  norm_num [entry_dist_sq, euclidean_dist_to_origin_sq, alookup, pyToQ, pyIsNum, posRecord]

/-- Claim C8: an entry whose stored `pos` fails the selector's defensive
re-validation (missing key or invalid shape) is skipped on its own: the
selector does not abort, and the result equals the result over the
remaining entries. -/
theorem claim_C8 (pre post : Table) (e : String × PyDict)
    (h : entry_dist_sq e.2 = none) :
    nearest_neighbor (pre ++ e :: post) = nearest_neighbor (pre ++ post) := by
  unfold nearest_neighbor
  have hne : ¬((pre ++ e :: post).isEmpty = true) := by
    simp [List.isEmpty_iff]
  rw [if_neg hne, List.foldl_append, List.foldl_cons, nnStep_skip h, ← List.foldl_append]
  by_cases h2 : (pre ++ post).isEmpty = true
  · rw [if_pos h2, List.isEmpty_iff.mp h2]
    rfl
  · rw [if_neg h2]

/-- Witness for C8: dropping the `pos`-less entry `X` from the middle of a
three-entry table leaves the selector's result unchanged (and equal to the
result over the two surviving entries, `("B", 2)`). -/
theorem claim_C8_witness :
    entry_dist_sq noPosRecord = none ∧
    nearest_neighbor ([("A", posRecord 3 4)] ++ ("X", noPosRecord) :: [("B", posRecord 1 1)]) =
      nearest_neighbor ([("A", posRecord 3 4)] ++ [("B", posRecord 1 1)]) ∧
    nearest_neighbor ([("A", posRecord 3 4)] ++ [("B", posRecord 1 1)]) = some ("B", 2) := by
  have h0 : entry_dist_sq noPosRecord = none := rfl
  refine ⟨h0, claim_C8 [("A", posRecord 3 4)] [("B", posRecord 1 1)] ("X", noPosRecord) h0, ?_⟩
  norm_num [nearest_neighbor, nnStep, entry_dist_sq, euclidean_dist_to_origin_sq,
    alookup, pyToQ, pyIsNum, posRecord, List.foldl]

/-- Claim C2: on any table with at least one record whose stored `pos`
evaluates, the selector returns a pair `(i, dsq)` whose distance
`sqrt dsq` is `sqrt(x^2 + y^2)` for that record's own `pos = [x, y]`, and
is minimal among the distances of all evaluable records. -/
theorem claim_C2 (t : Table)
    (h : ∃ e ∈ t, ∃ d0, entry_dist_sq e.2 = some d0) :
    ∃ i dsq, nearest_neighbor t = some (i, dsq) ∧
      (∃ rec a b, (i, rec) ∈ t ∧ alookup "pos" rec = some (JVal.jarr [a, b]) ∧
        Real.sqrt (dsq : ℝ) = Real.sqrt ((pyToQ a ^ 2 + pyToQ b ^ 2 : ℚ) : ℝ)) ∧
      ∀ e ∈ t, ∀ d', entry_dist_sq e.2 = some d' →
        Real.sqrt (dsq : ℝ) ≤ Real.sqrt ((d' : ℚ) : ℝ) := by
  obtain ⟨e0, he0, d0, hd0⟩ := h
  have hne : t ≠ [] := by rintro rfl; cases he0
  have hfold : List.foldl nnStep none t ≠ none := by
    intro hc
    rw [foldl_nnStep_eq_none] at hc
    rw [hc.2 e0 he0] at hd0; cases hd0
  have hemp : ¬(t.isEmpty = true) := by simp [List.isEmpty_iff, hne]
  obtain ⟨⟨i, dsq⟩, hy⟩ : ∃ y, List.foldl nnStep none t = some y := by
    cases hc : List.foldl nnStep none t with
    | none => exact absurd hc hfold
    | some y => exact ⟨y, rfl⟩
  have hnn : nearest_neighbor t = some (i, dsq) := by
    unfold nearest_neighbor; rw [if_neg hemp, hy]
  rcases foldl_nnStep_first t none i dsq hy with hA | hB
  · cases hA
  · obtain ⟨pre, rec, post, h1, h2, -, -⟩ := hB
    obtain ⟨p, hp, hpe⟩ := entry_dist_sq_some_inv rec dsq h2
    obtain ⟨a, b, hpab, -, -, hd⟩ := euclid_ok_inv p dsq hpe
    refine ⟨i, dsq, hnn, ⟨rec, a, b, ?_, ?_, ?_⟩, ?_⟩
    · rw [h1]; exact List.mem_append.mpr (Or.inr (List.mem_cons_self _ _))
    · rw [← hpab]; exact hp
    · rw [hd]
    · intro e' he' d' hd'
      have hle := (foldl_nnStep_min t none i dsq hy).1 e' he' d' hd'
      exact Real.sqrt_le_sqrt (by exact_mod_cast hle)

/-- Witness for C2 at the spec's example `A:[3,4]`, `B:[1,1]`, `C:[-5,0]`:
the selector picks `B` (squared distance 2, i.e. distance `sqrt 2`, which
lies between 1.4142 and 1.4143), and the general theorem applies. -/
theorem claim_C2_witness :
    nearest_neighbor exampleTable = some ("B", 2) ∧
    ((1.4142 : ℝ) < Real.sqrt ((2 : ℚ) : ℝ) ∧ Real.sqrt ((2 : ℚ) : ℝ) < 1.4143) ∧
    (∃ e ∈ exampleTable, ∃ d0, entry_dist_sq e.2 = some d0) ∧
    (∃ i dsq, nearest_neighbor exampleTable = some (i, dsq) ∧
      (∃ rec a b, (i, rec) ∈ exampleTable ∧ alookup "pos" rec = some (JVal.jarr [a, b]) ∧
        Real.sqrt (dsq : ℝ) = Real.sqrt ((pyToQ a ^ 2 + pyToQ b ^ 2 : ℚ) : ℝ)) ∧
      ∀ e ∈ exampleTable, ∀ d', entry_dist_sq e.2 = some d' →
        Real.sqrt (dsq : ℝ) ≤ Real.sqrt ((d' : ℚ) : ℝ)) := by
  have hcast : ((2 : ℚ) : ℝ) = 2 := by norm_num
  have hhyp : ∃ e ∈ exampleTable, ∃ d0, entry_dist_sq e.2 = some d0 := by
    refine ⟨("B", posRecord 1 1), by simp [exampleTable], 2, ?_⟩
    norm_num [entry_dist_sq, euclidean_dist_to_origin_sq, alookup, pyToQ, pyIsNum, posRecord]
  refine ⟨?_, ⟨?_, ?_⟩, hhyp, claim_C2 exampleTable hhyp⟩
  · norm_num [nearest_neighbor, nnStep, entry_dist_sq, euclidean_dist_to_origin_sq,
      alookup, pyToQ, pyIsNum, exampleTable, posRecord, List.foldl]
  · rw [hcast]
    rw [show (1.4142 : ℝ) < Real.sqrt 2 ↔ (1.4142 : ℝ) ^ 2 < 2 from Real.lt_sqrt (by norm_num)]
    norm_num
  · rw [hcast]
    rw [show Real.sqrt 2 < (1.4143 : ℝ) ↔ (2 : ℝ) < 1.4143 ^ 2 from Real.sqrt_lt' (by norm_num)]
    norm_num

theorem processDatagram_invalid (s : LoopState) (m : JVal) (now : ℤ)
    (h : validateMsg m = none) :
    processDatagram s (Decoded.ok m) now = StepOut.cont s := by
  simp [processDatagram, h]

theorem processDatagram_handledMalformed (s : LoopState) (d : Decoded) (now : ℤ)
    (h : isHandledMalformed d) : processDatagram s d now = StepOut.cont s := by
  rcases h with rfl | ⟨m, rfl, hv⟩
  · rfl
  · exact processDatagram_invalid s m now hv

theorem runLoop_handledMalformed (s : LoopState) (evs : List (Decoded × ℤ))
    (h : ∀ e ∈ evs, isHandledMalformed e.1) : runLoop s evs = RunResult.finished s := by
  induction evs with
  | nil => rfl
  | cons e rest ih =>
    rcases e with ⟨d, now⟩
    have hm := processDatagram_handledMalformed s d now (h _ (List.mem_cons_self _ _))
    simp only [runLoop, hm]
    exact ih fun e he => h e (List.mem_cons_of_mem _ he)

theorem processDatagram_badUtf8 (s : LoopState) (now : ℤ) :
    processDatagram s Decoded.badUtf8 now = StepOut.crash s := rfl

theorem runLoop_badUtf8 (s : LoopState) (now : ℤ) (rest : List (Decoded × ℤ)) :
    runLoop s ((Decoded.badUtf8, now) :: rest) = RunResult.crashed s := rfl

theorem processDatagram_valid (s : LoopState) (m : JVal) (b : Beacon) (now : ℤ)
    (h : validateMsg m = some b) :
    processDatagram s (Decoded.ok m) now =
      if now - s.first_ts.getD now ≥ COLLECT_WINDOW_MS
      then StepOut.halt ⟨dictInsert b.id (recordOf b) s.neighbors, some (s.first_ts.getD now)⟩
      else StepOut.cont ⟨dictInsert b.id (recordOf b) s.neighbors, some (s.first_ts.getD now)⟩ := by
  cases hf : s.first_ts with
  | none => simp [processDatagram, h, hf]
  | some t0 => simp [processDatagram, h, hf]

/-- Claim C1 (code bug): the code contradicts both the claim and its own
docstring ("Ignore malformed messages; don't crash", line 26).  Malformed
datagrams that DECODE — text that is not valid JSON, or a decoded value
rejected by validation (non-mapping, missing key, wrong type, non-integer
`ts`, wrong-arity or non-numeric `pos`) — are indeed discarded with the
state unchanged and the loop continuing (first conjunct).  But a datagram
whose bytes are not valid UTF-8 makes `data.decode("utf-8")` raise
`UnicodeDecodeError`, which the `except json.JSONDecodeError` handler on
line 107 does not catch: the step crashes (second conjunct) and the run
terminates abnormally with the remaining traffic unprocessed (third
conjunct), refuting "never terminates the process abnormally". -/
theorem claim_C1 :
    (∀ s d now, isHandledMalformed d → processDatagram s d now = StepOut.cont s) ∧
    (∀ s now, processDatagram s Decoded.badUtf8 now = StepOut.crash s) ∧
    (∀ s now rest, runLoop s ((Decoded.badUtf8, now) :: rest) = RunResult.crashed s) :=
  ⟨fun s d now h => processDatagram_handledMalformed s d now h,
   fun s now => processDatagram_badUtf8 s now,
   fun s now rest => runLoop_badUtf8 s now rest⟩

/-- Witness for C1: a float-`ts` message and a JSON decode failure are
discarded leaving the empty state unchanged, while a single non-UTF-8
datagram crashes the run. -/
theorem claim_C1_witness :
    (isHandledMalformed (Decoded.ok floatTsMsg) ∧
      processDatagram ⟨[], none⟩ (Decoded.ok floatTsMsg) 0 = StepOut.cont ⟨[], none⟩) ∧
    (isHandledMalformed Decoded.badJson ∧
      processDatagram ⟨[], none⟩ Decoded.badJson 0 = StepOut.cont ⟨[], none⟩) ∧
    runLoop ⟨[], none⟩ [(Decoded.badUtf8, 0)] = RunResult.crashed ⟨[], none⟩ := by
  have h1 : isHandledMalformed (Decoded.ok floatTsMsg) := Or.inr ⟨floatTsMsg, rfl, rfl⟩
  have h2 : isHandledMalformed Decoded.badJson := Or.inl rfl
  exact ⟨⟨h1, claim_C1.1 ⟨[], none⟩ (Decoded.ok floatTsMsg) 0 h1⟩,
    ⟨h2, claim_C1.1 ⟨[], none⟩ Decoded.badJson 0 h2⟩,
    claim_C1.2.2 ⟨[], none⟩ 0 []⟩

/-- Claim C3 (code bug in its first part, same root cause as C1): window
anchoring.  (1) While only HANDLED malformed datagrams arrive (invalid
JSON text or rejected messages), the state — in particular `first_ts` —
is unchanged, it stays unset, and the loop keeps running; the claim's
"only invalid datagrams arrive" however also covers non-UTF-8 datagrams,
on which the process crashes instead: the final conjunct shows the spec's
invalid-then-valid scenario dying before the valid beacon, so the window
never anchors and termination is abnormal.  (2) When the first valid
beacon is stored (with `first_ts` unset), `first_ts` becomes the
receiver's wall-clock reading `now`, whatever the beacon's own `ts` field
is, and the loop continues (the window cannot have elapsed at its own
anchor).  (3) When a valid beacon is stored with `first_ts` already set,
the loop halts exactly when `now - first_ts >= COLLECT_WINDOW_MS`, and
continues otherwise.  (4) A halting step ends the run normally: the
remaining events are not processed. -/
theorem claim_C3 :
    (∀ s evs, (∀ e ∈ evs, isHandledMalformed e.1) →
      runLoop s evs = RunResult.finished s) ∧
    (∀ s m b now, s.first_ts = none → validateMsg m = some b →
      processDatagram s (Decoded.ok m) now =
        StepOut.cont ⟨dictInsert b.id (recordOf b) s.neighbors, some now⟩) ∧
    (∀ s t0 m b now, s.first_ts = some t0 → validateMsg m = some b →
      (now - t0 ≥ COLLECT_WINDOW_MS →
        processDatagram s (Decoded.ok m) now =
          StepOut.halt ⟨dictInsert b.id (recordOf b) s.neighbors, some t0⟩) ∧
      (now - t0 < COLLECT_WINDOW_MS →
        processDatagram s (Decoded.ok m) now =
          StepOut.cont ⟨dictInsert b.id (recordOf b) s.neighbors, some t0⟩)) ∧
    (∀ s d now rest s', processDatagram s d now = StepOut.halt s' →
      runLoop s ((d, now) :: rest) = RunResult.finished s') ∧
    runLoop ⟨[], none⟩ [(Decoded.badUtf8, 0), (Decoded.ok (mkMsg "v1" 3 4 2 5), 500)] =
      RunResult.crashed ⟨[], none⟩ := by
  refine ⟨fun s evs h => runLoop_handledMalformed s evs h, ?_, ?_, ?_, rfl⟩
  · intro s m b now hf hv
    have hpd := processDatagram_valid s m b now hv
    rw [hf] at hpd
    simp only [Option.getD_none] at hpd
    rw [hpd, if_neg]
    simp only [COLLECT_WINDOW_MS]
    omega
  · intro s t0 m b now hf hv
    have hpd := processDatagram_valid s m b now hv
    rw [hf] at hpd
    simp only [Option.getD_some] at hpd
    constructor
    · intro hge
      rw [hpd, if_pos hge]
    · intro hlt
      rw [hpd, if_neg (not_le.mpr hlt)]
  · intro s d now rest s' hp
    simp only [runLoop, hp]

/-- Witness for C3: (1) a JSON decode failure and a float-`ts` message
leave the initial state untouched and the run finishing normally; (2) a
first valid beacon at wall-clock 1100 anchors `first_ts := 1100` — not
the beacon's `ts` field 5; (3) with `first_ts = 100`, a valid beacon at
1100 halts the loop (1000 ms elapsed); (4) the halting step discards the
rest of the schedule. -/
theorem claim_C3_witness :
    runLoop ⟨[], none⟩ [(Decoded.badJson, 0), (Decoded.ok floatTsMsg, 1100)] =
      RunResult.finished ⟨[], none⟩ ∧
    processDatagram ⟨[], none⟩ (Decoded.ok (mkMsg "v1" 3 4 2 5)) 1100 =
      StepOut.cont ⟨[("v1", [("pos", JVal.jarr [JVal.jint 3, JVal.jint 4]),
        ("speed", JVal.jint 2), ("last_ts", JVal.jint 5)])], some 1100⟩ ∧
    processDatagram ⟨[], some 100⟩ (Decoded.ok (mkMsg "v1" 3 4 2 5)) 1100 =
      StepOut.halt ⟨[("v1", [("pos", JVal.jarr [JVal.jint 3, JVal.jint 4]),
        ("speed", JVal.jint 2), ("last_ts", JVal.jint 5)])], some 100⟩ ∧
    runLoop ⟨[], some 100⟩ [(Decoded.ok (mkMsg "v1" 3 4 2 5), 1100),
        (Decoded.ok (mkMsg "v2" 0 0 0 0), 1200)] =
      RunResult.finished ⟨[("v1", [("pos", JVal.jarr [JVal.jint 3, JVal.jint 4]),
        ("speed", JVal.jint 2), ("last_ts", JVal.jint 5)])], some 100⟩ := by
  have hhalt := (claim_C3.2.2.1 ⟨[], some 100⟩ 100 (mkMsg "v1" 3 4 2 5)
    ⟨"v1", JVal.jarr [JVal.jint 3, JVal.jint 4], JVal.jint 2, JVal.jint 5⟩ 1100 rfl rfl).1
    (by simp only [COLLECT_WINDOW_MS]; omega)
  refine ⟨?_, ?_, hhalt, ?_⟩
  · refine claim_C3.1 _ _ ?_
    intro e he
    fin_cases he
    · exact Or.inl rfl
    · exact Or.inr ⟨floatTsMsg, rfl, rfl⟩
  · exact claim_C3.2.1 ⟨[], none⟩ (mkMsg "v1" 3 4 2 5)
      ⟨"v1", JVal.jarr [JVal.jint 3, JVal.jint 4], JVal.jint 2, JVal.jint 5⟩ 1100 rfl rfl
  · exact claim_C3.2.2.2.1 ⟨[], some 100⟩ (Decoded.ok (mkMsg "v1" 3 4 2 5)) 1100
      [(Decoded.ok (mkMsg "v2" 0 0 0 0), 1200)] _ hhalt

theorem alookup_dictInsert_self {α : Type} (k : String) (v : α) (t : List (String × α)) :
    alookup k (dictInsert k v t) = some v := by
  induction t with
  | nil => simp [dictInsert, alookup]
  | cons e rest ih =>
    rcases e with ⟨k', v'⟩
    by_cases hk : k' = k
    · simp [dictInsert, alookup, hk]
    · simp [dictInsert, alookup, hk, ih]

theorem keysOf_dictInsert (k : String) (v : PyDict) (t : Table) :
    keysOf (dictInsert k v t) =
      if k ∈ keysOf t then keysOf t else keysOf t ++ [k] := by
  induction t with
  | nil => simp [dictInsert, keysOf]
  | cons e rest ih =>
    rcases e with ⟨k', v'⟩
    by_cases hk : k' = k
    · subst hk
      simp [dictInsert, keysOf]
    · have hne : ¬(k = k') := fun hc => hk hc.symm
      simp only [dictInsert, if_neg hk, keysOf, List.map_cons] at ih ⊢
      rw [ih]
      by_cases hmem : k ∈ List.map Prod.fst rest
      · rw [if_pos hmem, if_pos (by simp [hmem])]
      · rw [if_neg hmem, if_neg (by simp [hne, hmem])]
        rfl

theorem count_keysOf_dictInsert (k : String) (v : PyDict) (t : Table)
    (h : (keysOf t).count k ≤ 1) : (keysOf (dictInsert k v t)).count k = 1 := by
  rw [keysOf_dictInsert]
  by_cases hmem : k ∈ keysOf t
  · rw [if_pos hmem]
    have := List.count_pos_iff.mpr hmem
    omega
  · rw [if_neg hmem, List.count_append, List.count_eq_zero_of_not_mem hmem,
      List.count_singleton_self]

/-- The final state of a step, whether the loop continues or halts. -/
theorem processDatagram_valid_state (s : LoopState) (m : JVal) (b : Beacon) (now : ℤ)
    (h : validateMsg m = some b) :
    (processDatagram s (Decoded.ok m) now).state =
      ⟨dictInsert b.id (recordOf b) s.neighbors, some (s.first_ts.getD now)⟩ := by
  rw [processDatagram_valid s m b now h]
  by_cases hc : now - s.first_ts.getD now ≥ COLLECT_WINDOW_MS
  · rw [if_pos hc]; rfl
  · rw [if_neg hc]; rfl

/-- Claim C4: two valid beacons with the same id processed in sequence
overwrite wholesale: afterwards the table holds that id exactly once and
the stored record is exactly `{pos, speed, last_ts: ts}` from the second
beacon.  (The hypothesis that the id occurs at most once beforehand is the
table invariant; it holds for every reachable table, see C9.) -/
theorem claim_C4 (s : LoopState) (m1 m2 : JVal) (b1 b2 : Beacon) (t1 t2 : ℤ)
    (s1 : LoopState)
    (hv1 : validateMsg m1 = some b1) (hv2 : validateMsg m2 = some b2)
    (hid : b1.id = b2.id)
    (hcount : (keysOf s.neighbors).count b2.id ≤ 1)
    (h1 : processDatagram s (Decoded.ok m1) t1 = StepOut.cont s1) :
    alookup b2.id (processDatagram s1 (Decoded.ok m2) t2).state.neighbors =
      some (recordOf b2) ∧
    (keysOf (processDatagram s1 (Decoded.ok m2) t2).state.neighbors).count b2.id = 1 := by
  have hs1 : s1.neighbors = dictInsert b1.id (recordOf b1) s.neighbors := by
    have := processDatagram_valid_state s m1 b1 t1 hv1
    rw [h1] at this
    rw [show s1 = (StepOut.cont s1).state from rfl, this]
  have hs2 : (processDatagram s1 (Decoded.ok m2) t2).state.neighbors =
      dictInsert b2.id (recordOf b2) s1.neighbors := by
    rw [processDatagram_valid_state s1 m2 b2 t2 hv2]
  rw [hs2, hs1, hid]
  refine ⟨alookup_dictInsert_self _ _ _, ?_⟩
  exact count_keysOf_dictInsert _ _ _ (le_of_eq (count_keysOf_dictInsert _ _ _ hcount))

/-- Witness for C4: from the empty table, `v1` at `[0,0]` then `v1` at
`[7,7]` leave one entry holding the second beacon's data. -/
theorem claim_C4_witness :
    alookup "v1" (processDatagram ⟨[("v1",
        [("pos", JVal.jarr [JVal.jint 0, JVal.jint 0]), ("speed", JVal.jint 1),
         ("last_ts", JVal.jint 5)])], some 100⟩ (Decoded.ok (mkMsg "v1" 7 7 2 6)) 200).state.neighbors =
      some [("pos", JVal.jarr [JVal.jint 7, JVal.jint 7]), ("speed", JVal.jint 2),
        ("last_ts", JVal.jint 6)] ∧
    (keysOf (processDatagram ⟨[("v1",
        [("pos", JVal.jarr [JVal.jint 0, JVal.jint 0]), ("speed", JVal.jint 1),
         ("last_ts", JVal.jint 5)])], some 100⟩
        (Decoded.ok (mkMsg "v1" 7 7 2 6)) 200).state.neighbors).count "v1" = 1 := by
  exact claim_C4 ⟨[], some 100⟩ (mkMsg "v1" 0 0 1 5) (mkMsg "v1" 7 7 2 6)
    ⟨"v1", JVal.jarr [JVal.jint 0, JVal.jint 0], JVal.jint 1, JVal.jint 5⟩
    ⟨"v1", JVal.jarr [JVal.jint 7, JVal.jint 7], JVal.jint 2, JVal.jint 6⟩
    100 200 ⟨[("v1", [("pos", JVal.jarr [JVal.jint 0, JVal.jint 0]),
      ("speed", JVal.jint 1), ("last_ts", JVal.jint 5)])], some 100⟩
    rfl rfl rfl (by simp [keysOf]) rfl

theorem keysOf_dictInsert_toFinset (k : String) (v : PyDict) (t : Table) :
    (keysOf (dictInsert k v t)).toFinset = insert k (keysOf t).toFinset := by
  rw [keysOf_dictInsert]
  by_cases hmem : k ∈ keysOf t
  · rw [if_pos hmem]
    exact (Finset.insert_eq_self.mpr (List.mem_toFinset.mpr hmem)).symm
  · rw [if_neg hmem]
    rw [List.toFinset_append]
    rw [Finset.union_comm]
    simp [Finset.insert_eq]

theorem keysOf_dictInsert_nodup (k : String) (v : PyDict) (t : Table)
    (h : (keysOf t).Nodup) : (keysOf (dictInsert k v t)).Nodup := by
  rw [keysOf_dictInsert]
  by_cases hmem : k ∈ keysOf t
  · rw [if_pos hmem]; exact h
  · rw [if_neg hmem]
    rw [List.nodup_append]
    exact ⟨h, List.nodup_singleton k, by simp [List.disjoint_singleton, hmem]⟩

theorem keysOf_subset_dictInsert (k : String) (v : PyDict) (t : Table) :
    keysOf t ⊆ keysOf (dictInsert k v t) := by
  rw [keysOf_dictInsert]
  by_cases hmem : k ∈ keysOf t
  · rw [if_pos hmem]
    exact fun x hx => hx
  · rw [if_neg hmem]
    exact List.subset_append_left _ _

theorem processDatagram_ok_ne_crash (s : LoopState) (m : JVal) (now : ℤ) (s' : LoopState) :
    processDatagram s (Decoded.ok m) now ≠ StepOut.crash s' := by
  cases hv : validateMsg m with
  | none =>
    rw [processDatagram_invalid s m now hv]
    intro hc; cases hc
  | some b =>
    rw [processDatagram_valid s m b now hv]
    by_cases hc : now - s.first_ts.getD now ≥ COLLECT_WINDOW_MS
    · rw [if_pos hc]; intro hh; cases hh
    · rw [if_neg hc]; intro hh; cases hh

theorem runLoop_keys_toFinset (evs : List (Decoded × ℤ)) :
    ∀ s : LoopState, (keysOf (runLoop s evs).state.neighbors).toFinset =
      (keysOf s.neighbors).toFinset ∪ (acceptedIds s evs).toFinset := by
  induction evs with
  | nil => intro s; simp [runLoop, acceptedIds, RunResult.state]
  | cons e rest ih =>
    intro s
    rcases e with ⟨d, now⟩
    cases d with
    | badUtf8 =>
      simp [runLoop, processDatagram, acceptedIds, RunResult.state]
    | badJson =>
      simp only [runLoop, processDatagram, acceptedIds]
      exact ih s
    | ok m =>
      cases hv : validateMsg m with
      | none =>
        have hm := processDatagram_invalid s m now hv
        simp only [runLoop, hm, acceptedIds, hv]
        exact ih s
      | some b =>
        cases hp : processDatagram s (Decoded.ok m) now with
        | cont s' =>
          have hst : s'.neighbors = dictInsert b.id (recordOf b) s.neighbors := by
            have hq := processDatagram_valid_state s m b now hv
            rw [hp] at hq
            rw [show s' = (StepOut.cont s').state from rfl, hq]
          simp only [runLoop, hp, acceptedIds, hv]
          rw [ih s', hst, keysOf_dictInsert_toFinset]
          rw [List.toFinset_cons]
          rw [Finset.insert_union, Finset.union_insert]
        | halt s' =>
          have hst : s'.neighbors = dictInsert b.id (recordOf b) s.neighbors := by
            have hq := processDatagram_valid_state s m b now hv
            rw [hp] at hq
            rw [show s' = (StepOut.halt s').state from rfl, hq]
          simp only [runLoop, hp, acceptedIds, hv, RunResult.state]
          rw [hst, keysOf_dictInsert_toFinset]
          simp [Finset.union_comm, Finset.insert_eq]
        | crash s' => exact absurd hp (processDatagram_ok_ne_crash s m now s')

theorem runLoop_keys_nodup (evs : List (Decoded × ℤ)) :
    ∀ s : LoopState, (keysOf s.neighbors).Nodup →
      (keysOf (runLoop s evs).state.neighbors).Nodup := by
  induction evs with
  | nil => intro s h; exact h
  | cons e rest ih =>
    intro s h
    rcases e with ⟨d, now⟩
    cases d with
    | badUtf8 =>
      simp only [runLoop, processDatagram, RunResult.state]
      exact h
    | badJson =>
      simp only [runLoop, processDatagram]
      exact ih s h
    | ok m =>
      cases hv : validateMsg m with
      | none =>
        have hm := processDatagram_invalid s m now hv
        simp only [runLoop, hm]
        exact ih s h
      | some b =>
        cases hp : processDatagram s (Decoded.ok m) now with
        | cont s' =>
          have hst : s'.neighbors = dictInsert b.id (recordOf b) s.neighbors := by
            have hq := processDatagram_valid_state s m b now hv
            rw [hp] at hq
            rw [show s' = (StepOut.cont s').state from rfl, hq]
          simp only [runLoop, hp]
          exact ih s' (by rw [hst]; exact keysOf_dictInsert_nodup _ _ _ h)
        | halt s' =>
          have hst : s'.neighbors = dictInsert b.id (recordOf b) s.neighbors := by
            have hq := processDatagram_valid_state s m b now hv
            rw [hp] at hq
            rw [show s' = (StepOut.halt s').state from rfl, hq]
          simp only [runLoop, hp, RunResult.state]
          rw [hst]
          exact keysOf_dictInsert_nodup _ _ _ h
        | crash s' => exact absurd hp (processDatagram_ok_ne_crash s m now s')

theorem runLoop_keys_subset (evs : List (Decoded × ℤ)) :
    ∀ s : LoopState, keysOf s.neighbors ⊆ keysOf (runLoop s evs).state.neighbors := by
  induction evs with
  | nil => intro s; exact fun x hx => hx
  | cons e rest ih =>
    intro s
    rcases e with ⟨d, now⟩
    cases d with
    | badUtf8 =>
      simp only [runLoop, processDatagram, RunResult.state]
      exact fun x hx => hx
    | badJson =>
      simp only [runLoop, processDatagram]
      exact ih s
    | ok m =>
      cases hv : validateMsg m with
      | none =>
        have hm := processDatagram_invalid s m now hv
        simp only [runLoop, hm]
        exact ih s
      | some b =>
        cases hp : processDatagram s (Decoded.ok m) now with
        | cont s' =>
          have hst : s'.neighbors = dictInsert b.id (recordOf b) s.neighbors := by
            have hq := processDatagram_valid_state s m b now hv
            rw [hp] at hq
            rw [show s' = (StepOut.cont s').state from rfl, hq]
          simp only [runLoop, hp]
          refine List.Subset.trans ?_ (ih s')
          rw [hst]
          exact keysOf_subset_dictInsert _ _ _
        | halt s' =>
          have hst : s'.neighbors = dictInsert b.id (recordOf b) s.neighbors := by
            have hq := processDatagram_valid_state s m b now hv
            rw [hp] at hq
            rw [show s' = (StepOut.halt s').state from rfl, hq]
          simp only [runLoop, hp, RunResult.state]
          rw [hst]
          exact keysOf_subset_dictInsert _ _ _
        | crash s' => exact absurd hp (processDatagram_ok_ne_crash s m now s')

/-- Claim C9: the table's key set at the end of any run — a normal finish
or the prefix of a crashed run — equals the initial key set united with
the ids accepted during the run; distinctness of keys is preserved; keys
are never deleted; and the summary's `count` (`len(neighbors)`, line 162)
for a run from the empty table equals the number of distinct accepted
ids. -/
theorem claim_C9 :
    (∀ s evs, (keysOf (runLoop s evs).state.neighbors).toFinset =
      (keysOf s.neighbors).toFinset ∪ (acceptedIds s evs).toFinset) ∧
    (∀ s evs, (keysOf s.neighbors).Nodup →
      (keysOf (runLoop s evs).state.neighbors).Nodup) ∧
    (∀ s evs, keysOf s.neighbors ⊆ keysOf (runLoop s evs).state.neighbors) ∧
    (∀ evs tnow, (mkSummary (runLoop ⟨[], none⟩ evs).state tnow).count =
      (acceptedIds ⟨[], none⟩ evs).toFinset.card) := by
  refine ⟨fun s evs => runLoop_keys_toFinset evs s,
    fun s evs => runLoop_keys_nodup evs s,
    fun s evs => runLoop_keys_subset evs s, ?_⟩
  intro evs tnow
  have h1 := runLoop_keys_toFinset evs ⟨[], none⟩
  have h2 := runLoop_keys_nodup evs ⟨[], none⟩ (by simp [keysOf])
  have hlen : (mkSummary (runLoop ⟨[], none⟩ evs).state tnow).count =
      (keysOf (runLoop ⟨[], none⟩ evs).state.neighbors).length := by
    simp [mkSummary, keysOf]
  rw [hlen, ← List.toFinset_card_of_nodup h2, h1]
  simp [keysOf]

/-- Witness for C9: a run with beacons `v1`, `v1` (duplicate id) has one
distinct accepted id, a table with the single key `v1`, and summary
`count = 1`. -/
theorem claim_C9_witness :
    (keysOf (runLoop ⟨[], none⟩
        [(Decoded.ok (mkMsg "v1" 0 0 1 5), 100),
         (Decoded.ok (mkMsg "v1" 7 7 2 6), 200)]).state.neighbors).toFinset =
      (keysOf ((⟨[], none⟩ : LoopState)).neighbors).toFinset ∪
        (acceptedIds ⟨[], none⟩
          [(Decoded.ok (mkMsg "v1" 0 0 1 5), 100),
           (Decoded.ok (mkMsg "v1" 7 7 2 6), 200)]).toFinset ∧
    (keysOf ((⟨[], none⟩ : LoopState)).neighbors).Nodup ∧
    (mkSummary (runLoop ⟨[], none⟩
        [(Decoded.ok (mkMsg "v1" 0 0 1 5), 100),
         (Decoded.ok (mkMsg "v1" 7 7 2 6), 200)]).state 999).count =
      (acceptedIds ⟨[], none⟩
        [(Decoded.ok (mkMsg "v1" 0 0 1 5), 100),
         (Decoded.ok (mkMsg "v1" 7 7 2 6), 200)]).toFinset.card ∧
    (mkSummary (runLoop ⟨[], none⟩
        [(Decoded.ok (mkMsg "v1" 0 0 1 5), 100),
         (Decoded.ok (mkMsg "v1" 7 7 2 6), 200)]).state 999).count = 1 := by
  refine ⟨claim_C9.1 ⟨[], none⟩ _, List.nodup_nil, claim_C9.2.2.2 _ 999, ?_⟩
  rfl

theorem specPosOk_eq (p : JVal) : specPosOk p = (posShapeOk p && posElemsNum p) := by
  cases p with
  | jarr l =>
    rcases l with _ | ⟨x, _ | ⟨y, _ | ⟨z, tl⟩⟩⟩ <;>
      simp [specPosOk, posShapeOk, posElemsNum]
  | jnull => rfl
  | jbool b => rfl
  | jint n => rfl
  | jfloat q => rfl
  | jstr s => rfl
  | jobj f => rfl

theorem validateMsg_isSome_eq_acceptSpec (msg : JVal) :
    (validateMsg msg).isSome = acceptSpec msg := by
  cases msg with
  | jobj fields =>
    cases h1 : alookup "id" fields with
    | none => simp [validateMsg, acceptSpec, h1]
    | some i =>
      cases h2 : alookup "pos" fields with
      | none => simp [validateMsg, acceptSpec, h1, h2]
      | some p =>
        cases h3 : alookup "speed" fields with
        | none => simp [validateMsg, acceptSpec, h1, h2, h3]
        | some s =>
          cases h4 : alookup "ts" fields with
          | none => simp [validateMsg, acceptSpec, h1, h2, h3, h4]
          | some t =>
            simp only [validateMsg, acceptSpec, h1, h2, h3, h4]
            cases i <;> try simp [pyIsStr]
            case jstr idStr =>
              cases hb1 : posShapeOk p <;> cases hb2 : posElemsNum p <;>
                cases hb3 : pyIsNum s <;> cases hb4 : pyIsInt t <;>
                simp [pyIsStr, specPosOk_eq, hb1, hb2, hb3, hb4]
  | jnull => rfl
  | jbool b => rfl
  | jint n => rfl
  | jfloat q => rfl
  | jstr s => rfl
  | jarr l => rfl

theorem validateMsg_floatTs (fields : List (String × JVal)) (q : ℚ)
    (h : alookup "ts" fields = some (JVal.jfloat q)) :
    validateMsg (JVal.jobj fields) = none := by
  cases h1 : alookup "id" fields with
  | none => simp [validateMsg, h1]
  | some i =>
    cases h2 : alookup "pos" fields with
    | none => simp [validateMsg, h1, h2]
    | some p =>
      cases h3 : alookup "speed" fields with
      | none => simp [validateMsg, h1, h2, h3]
      | some s =>
        simp only [validateMsg, h1, h2, h3, h]
        cases i <;> try rfl
        case jstr idStr =>
          cases hb1 : posShapeOk p <;> cases hb2 : posElemsNum p <;>
            cases hb3 : pyIsNum s <;> simp [hb1, hb2, hb3, pyIsInt]

/-- Claim C6: a decoded value is accepted (validation returns a beacon) if
and only if it is a mapping with all four keys `id`, `pos`, `speed`, `ts`
(extra keys ignored), `id` a string, `pos` an ordered two-element
collection of numbers, `speed` a number, and `ts` an integer — where
"number" and "integer" are Python's classes, under which `bool` also
counts (see C10); and a message whose `ts` is a float is rejected, not
truncated. -/
theorem claim_C6 :
    (∀ msg, (validateMsg msg).isSome = acceptSpec msg) ∧
    (∀ fields q, alookup "ts" fields = some (JVal.jfloat q) →
      validateMsg (JVal.jobj fields) = none) :=
  ⟨validateMsg_isSome_eq_acceptSpec, validateMsg_floatTs⟩

/-- Witness for C6: a fully well-formed message satisfies both sides of
the equivalence, and the same message with `ts = 5.5` is rejected. -/
theorem claim_C6_witness :
    ((validateMsg (mkMsg "v1" 3 4 2 5)).isSome = acceptSpec (mkMsg "v1" 3 4 2 5) ∧
      acceptSpec (mkMsg "v1" 3 4 2 5) = true) ∧
    (alookup "ts" [("id", JVal.jstr "v1"), ("pos", JVal.jarr [JVal.jint 3, JVal.jint 4]),
        ("speed", JVal.jint 2), ("ts", JVal.jfloat (11 / 2))] = some (JVal.jfloat (11 / 2)) ∧
      validateMsg floatTsMsg = none) := by
  refine ⟨⟨claim_C6.1 (mkMsg "v1" 3 4 2 5), rfl⟩, rfl, ?_⟩
  exact claim_C6.2 [("id", JVal.jstr "v1"), ("pos", JVal.jarr [JVal.jint 3, JVal.jint 4]),
    ("speed", JVal.jint 2), ("ts", JVal.jfloat (11 / 2))] (11 / 2) rfl

/-- Claim C10: an otherwise well-formed beacon whose `ts`, `speed`, or
`pos` elements are JSON booleans passes validation and is stored, because
Python's `bool` is a subclass of `int`; and the selector's distance
computation treats boolean coordinates as the numbers 0 and 1. -/
theorem claim_C10 (i : String) (b1 b2 sb tb : Bool) :
    validateMsg (JVal.jobj [("id", JVal.jstr i),
        ("pos", JVal.jarr [JVal.jbool b1, JVal.jbool b2]),
        ("speed", JVal.jbool sb), ("ts", JVal.jbool tb)]) =
      some ⟨i, JVal.jarr [JVal.jbool b1, JVal.jbool b2], JVal.jbool sb, JVal.jbool tb⟩ ∧
    euclidean_dist_to_origin_sq (JVal.jarr [JVal.jbool b1, JVal.jbool b2]) =
      Except.ok ((cond b1 1 0) ^ 2 + (cond b2 1 0) ^ 2) ∧
    nearest_neighbor [(i, recordOf ⟨i, JVal.jarr [JVal.jbool b1, JVal.jbool b2],
        JVal.jbool sb, JVal.jbool tb⟩)] =
      some (i, (cond b1 1 0) ^ 2 + (cond b2 1 0) ^ 2) :=
  ⟨rfl, rfl, rfl⟩
